import Mathlib

/-!
Lab inventory tracker (`script.js`): embedding and verified properties

A shallow embedding of the inventory core of `script.js`: the `Item` class, the
`inventoryRegistry` map with its id counter, the `localStorage` slot, the form and
stock-action handlers, and the derived metrics.

Number model.  A JavaScript number is either `NaN` or a finite value; finite values are
represented exactly, as rationals.  IEEE-754 rounding, the infinities and the exponent
notation that Number-to-String conversion switches to for magnitudes of `1e21` and more
(or below `1e-6`) are outside this model.

The quantity fields of an `Item` and the id counter only ever hold results of `parseInt`,
changed by `+ 1` and `- 1`: they are typed as integer-valued numbers (`JSInt`).

String model.  A JavaScript string is represented by a Lean `String`; its `length` is
counted in UTF-16 code units, as JavaScript does.
-/

namespace LabInventory

/-! ## Numbers -/

/-- A JavaScript number: `NaN` or an exactly represented finite value. -/
inductive JSNum where
  | nan : JSNum
  | num (q : ℚ) : JSNum
  deriving DecidableEq, Repr

namespace JSNum

instance : OfNat JSNum n := ⟨num n⟩
instance : NatCast JSNum := ⟨fun n => num n⟩

/-- The binary `+` of JavaScript on numbers: `NaN` is absorbing. -/
def add : JSNum → JSNum → JSNum
  | num a, num b => num (a + b)
  | _, _ => nan

/-- The binary `-` of JavaScript on numbers. -/
def sub : JSNum → JSNum → JSNum
  | num a, num b => num (a - b)
  | _, _ => nan

/-- The binary `*` of JavaScript on numbers. -/
def mul : JSNum → JSNum → JSNum
  | num a, num b => num (a * b)
  | _, _ => nan

instance : Add JSNum := ⟨add⟩
instance : Sub JSNum := ⟨sub⟩
instance : Mul JSNum := ⟨mul⟩

/-- The relational `a < b`: false as soon as one side is `NaN`. -/
def lt : JSNum → JSNum → Bool
  | num a, num b => decide (a < b)
  | _, _ => false

/-- The relational `a <= b`: false as soon as one side is `NaN`. -/
def le : JSNum → JSNum → Bool
  | num a, num b => decide (a ≤ b)
  | _, _ => false

/-- The relational `a > b`, which JavaScript evaluates as `b < a`. -/
def gt (a b : JSNum) : Bool := lt b a

/-- Strict equality `a === b` on numbers: `NaN` is not equal to itself. -/
def strictEq : JSNum → JSNum → Bool
  | num a, num b => decide (a = b)
  | _, _ => false

/-- The global `isNaN` on a number. -/
def isNaN : JSNum → Bool
  | nan => true
  | num _ => false

end JSNum

/-- An integer-valued JavaScript number or `NaN`: what `parseInt` returns, hence what the
quantity fields of an `Item` and the id counter hold. -/
inductive JSInt where
  | nan : JSInt
  | int (z : ℤ) : JSInt
  deriving DecidableEq, Repr

namespace JSInt

instance : OfNat JSInt n := ⟨int n⟩

/-- The value as a number. -/
def toNum : JSInt → JSNum
  | nan => JSNum.nan
  | int z => JSNum.num z

/-- The binary `+` on integer-valued numbers. -/
def add : JSInt → JSInt → JSInt
  | int a, int b => int (a + b)
  | _, _ => nan

/-- The binary `-` on integer-valued numbers. -/
def sub : JSInt → JSInt → JSInt
  | int a, int b => int (a - b)
  | _, _ => nan

instance : Add JSInt := ⟨add⟩
instance : Sub JSInt := ⟨sub⟩

/-- The function `Math.max(a, b)` on integer-valued numbers: `NaN` as soon as one argument is. -/
def max : JSInt → JSInt → JSInt
  | int a, int b => int (Max.max a b)
  | _, _ => nan

end JSInt

/-! ## Strings and integer parsing -/

/-- The `length` of a JavaScript string: its number of UTF-16 code units (a character
beyond the basic plane takes two). -/
def jsLength (s : String) : Nat :=
  (s.data.map fun c => if c.toNat < 0x10000 then 1 else 2).sum

/-- The white space and line terminator characters that `parseInt` skips at the start of
its input. -/
def isWhiteSpace (c : Char) : Bool :=
  let n := c.toNat
  n == 0x09 || n == 0x0A || n == 0x0B || n == 0x0C || n == 0x0D || n == 0x20 ||
  n == 0xA0 || n == 0x1680 || (0x2000 ≤ n && n ≤ 0x200A) || n == 0x2028 ||
  n == 0x2029 || n == 0x202F || n == 0x205F || n == 0x3000 || n == 0xFEFF

/-- The value of `c` as a digit of the given radix, if it is one. -/
def digitValue (radix : Nat) (c : Char) : Option Nat :=
  let n := c.toNat
  let v : Option Nat :=
    if 48 ≤ n ∧ n ≤ 57 then some (n - 48)
    else if 97 ≤ n ∧ n ≤ 122 then some (n - 87)
    else if 65 ≤ n ∧ n ≤ 90 then some (n - 55)
    else none
  v.filter (fun d => decide (d < radix))

/-- The values of the longest prefix of `s` made of digits of the radix. -/
def digitPrefix (radix : Nat) : List Char → List Nat
  | [] => []
  | c :: cs =>
    match digitValue radix c with
    | some d => d :: digitPrefix radix cs
    | none => []

/-- The number denoted by a list of digits, most significant first. -/
def digitsValue (radix : Nat) (ds : List Nat) : Nat :=
  ds.foldl (fun acc d => acc * radix + d) 0

/-- The optional sign at the start of the input of `parseInt`: whether it is a minus, and
the rest. -/
def stripSign : List Char → Bool × List Char
  | [] => (false, [])
  | c :: r => if c = '-' then (true, r) else if c = '+' then (false, r) else (false, c :: r)

/-- The optional `0x` or `0X` at the start of the digits of `parseInt` (no radix argument):
the radix, and the rest. -/
def stripHexPrefix : List Char → Nat × List Char
  | c0 :: c1 :: r => if c0 = '0' ∧ (c1 = 'x' ∨ c1 = 'X') then (16, r) else (10, c0 :: c1 :: r)
  | s => (10, s)

/-- The global `parseInt(string)` with no radix argument, on the characters of the
string. -/
def parseIntChars (s : List Char) : JSInt :=
  let signed := stripSign (s.dropWhile isWhiteSpace)
  let body := stripHexPrefix signed.2
  let ds := digitPrefix body.1 body.2
  if ds = [] then JSInt.nan
  else if signed.1 then JSInt.int (-(digitsValue body.1 ds : ℤ))
  else JSInt.int (digitsValue body.1 ds : ℤ)

/-- The global `parseInt(string)` with no radix argument. -/
def parseInt (s : String) : JSInt := parseIntChars s.data

/-- The character of a decimal digit. -/
def digitChar (d : Nat) : Char := Char.ofNat (48 + d)

/-- The decimal digits of `n`, most significant first; `fuel` bounds the number of
digits. -/
def natDigits : Nat → Nat → List Nat
  | 0, _ => []
  | fuel + 1, n => if n < 10 then [n] else natDigits fuel (n / 10) ++ [n % 10]

/-- Number-to-String conversion of a non-negative integer: its decimal digits. -/
def natToChars (n : Nat) : List Char := (natDigits (n + 1) n).map digitChar

/-- Number-to-String conversion of an integer-valued number or `NaN`, as a template
literal applies it. -/
def numberToChars : JSInt → List Char
  | JSInt.nan => ['N', 'a', 'N']
  | JSInt.int (Int.ofNat n) => natToChars n
  | JSInt.int (Int.negSucc n) => '-' :: natToChars (n + 1)

/-- The method `String.prototype.replace(pat, rep)` with string arguments: the first
occurrence of `pat` is replaced. -/
def replaceFirst (pat rep : List Char) : List Char → List Char
  | [] => if pat = [] then rep else []
  | c :: cs =>
    if pat.isPrefixOf (c :: cs) then rep ++ (c :: cs).drop pat.length
    else c :: replaceFirst pat rep cs

/-- The call `s.replace(pat, rep)`. -/
def jsReplace (s pat rep : String) : String := ⟨replaceFirst pat.data rep.data s.data⟩

/-! ## Constants -/

/-- The constant `LOW_STOCK_THRESHOLD = 10`. -/
def LOW_STOCK_THRESHOLD : JSNum := 10

/-- The constant `INVENTORY_KEY = 'labInventoryData'`, the name of the storage slot. -/
def INVENTORY_KEY : String := "labInventoryData"

/-! ## The class `Item` -/

/-- A value handed to the `Item` constructor or held in a field of a stored JSON record:
`null` or a number. -/
inductive JSVal where
  | null : JSVal
  | number (x : JSNum) : JSVal
  deriving DecidableEq, Repr

/-- The global `parseFloat(v)`: the argument is converted to a string and parsed back, so
a number is returned as it is and `null` gives `NaN`. -/
def parseFloatValue : JSVal → JSNum
  | JSVal.null => JSNum.nan
  | JSVal.number x => x

/-- The global `parseInt(v)` on a value that is not a string: the argument is converted to
a string and its integer prefix is parsed, so a number (written in plain decimal notation,
see the number model) is truncated towards zero and `null` gives `NaN`. -/
def parseIntValue : JSVal → JSInt
  | JSVal.null => JSInt.nan
  | JSVal.number JSNum.nan => JSInt.nan
  | JSVal.number (JSNum.num q) => JSInt.int (Int.tdiv q.num q.den)

/-- An instance of `class Item`. -/
structure Item where
  id : String
  name : String
  unitPrice : JSNum
  quantity : JSInt
  initialQuantity : JSInt
  deriving DecidableEq, Repr

/-- The constructor `new Item(id, name, price, quantity, initialQuantity)`.  Every call of the store passes
the five arguments, so the default `initialQuantity = quantity` is never used. -/
def Item.new (id name : String) (price quantity initialQuantity : JSVal) : Item :=
  { id := id
    name := name
    unitPrice := parseFloatValue price
    quantity := parseIntValue quantity
    initialQuantity := parseIntValue initialQuantity }

/-- The method `calculateCurrentValue()`. -/
def Item.calculateCurrentValue (self : Item) : JSNum := self.unitPrice * self.quantity.toNum

/-- The method `calculateInitialInvestment()`. -/
def Item.calculateInitialInvestment (self : Item) : JSNum :=
  self.unitPrice * self.initialQuantity.toNum

/-! ## The registry: a `Map` from id to `Item`

Every `set` of the source uses the id of the item as its key and no id is reassigned, so
the map is represented by its values in insertion order, looked up by `id`.  The
operations assume, and do not require, that ids are pairwise distinct. -/

/-- The method `Map.prototype.get`. -/
def mapGet (reg : List Item) (id : String) : Option Item :=
  reg.find? fun it => it.id == id

/-- The method `Map.prototype.set(item.id, item)`: an existing key keeps its position and takes the
new value, a new key is appended. -/
def mapSet : List Item → Item → List Item
  | [], item => [item]
  | x :: xs, item => if x.id = item.id then item :: xs else x :: mapSet xs item

/-- The method `Map.prototype.delete`. -/
def mapDelete : List Item → String → List Item
  | [], _ => []
  | x :: xs, id => if x.id = id then xs else x :: mapDelete xs id

/-- Assignment to the fields of the object that `get(id)` returns: the entry of the map is
updated in place. -/
def mapModify (f : Item → Item) : List Item → String → List Item
  | [], _ => []
  | x :: xs, id => if x.id = id then f x :: xs else x :: mapModify f xs id

/-! ## State and persistence -/

/-- One record of the array that `JSON.stringify` writes for the values of the registry
and `JSON.parse` reads back. -/
structure Record where
  id : String
  name : String
  unitPrice : JSVal
  quantity : JSVal
  initialQuantity : JSVal
  deriving DecidableEq, Repr

/-- The function `JSON.stringify` on a number: `NaN` is written as `null`. -/
def jsonOfNumber : JSNum → JSVal
  | JSNum.nan => JSVal.null
  | JSNum.num q => JSVal.number (JSNum.num q)

/-- The record that `JSON.stringify` writes for an item: its own properties. -/
def jsonOfItem (item : Item) : Record :=
  { id := item.id
    name := item.name
    unitPrice := jsonOfNumber item.unitPrice
    quantity := jsonOfNumber item.quantity.toNum
    initialQuantity := jsonOfNumber item.initialQuantity.toNum }

/-- The mutable state of the script: the registry, the id counter, and the content of the
`localStorage` slot `INVENTORY_KEY` (`none` when the key is absent), held as the array of
records its JSON text denotes. -/
structure State where
  inventoryRegistry : List Item
  itemIDCounter : JSInt
  storage : Option (List Record)
  deriving DecidableEq, Repr

/-- The function `saveInventory()`. -/
def saveInventory (st : State) : State :=
  let dataArray := st.inventoryRegistry
  { st with storage := some (dataArray.map jsonOfItem) }

/-- The function `loadInventory()`: the new state and the returned boolean. -/
def loadInventory (st : State) : State × Bool :=
  match st.storage with
  | some dataArray =>
    let registry := dataArray.foldl
      (fun reg data =>
        let item := Item.new data.id data.name data.unitPrice data.quantity data.initialQuantity
        mapSet reg item) []
    let lastIdNum := dataArray.foldl
      (fun max item => JSInt.max max (parseInt (jsReplace item.id "ITM" ""))) 100
    ({ st with inventoryRegistry := registry, itemIDCounter := lastIdNum + 1 }, true)
  | none => (st, false)

/-! ## Stock status -/

/-- The object returned by `getStockStatus`. -/
structure StockStatus where
  label : String
  class_ : String
  deriving DecidableEq, Repr

/-- The function `getStockStatus(quantity)`. -/
def getStockStatus (quantity : JSNum) : StockStatus :=
  if JSNum.strictEq quantity 0 then { label := "ZERO", class_ := "zero" }
  else if JSNum.lt quantity LOW_STOCK_THRESHOLD then { label := "LOW", class_ := "low" }
  else { label := "HEALTHY", class_ := "healthy" }

/-! ## Item form -/

/-- The function `validateItemForm(name, price, quantity)`. -/
def validateItemForm (name : String) (price quantity : JSNum) : List String :=
  let errors : List String := []
  let errors :=
    if jsLength name < 3 then errors ++ ["Item Name must be at least 3 characters."]
    else errors
  let errors :=
    if JSNum.le price 0 || JSNum.isNaN price then
      errors ++ ["Unit Price must be a positive number."]
    else errors
  let errors :=
    if JSNum.lt quantity 0 || JSNum.isNaN quantity then
      errors ++ ["Quantity must be zero or a positive integer."]
    else errors
  errors

/-- What a handler does to the world besides changing the state, in order. -/
inductive Effect where
  /-- A call of `alert(msg)`. -/
  | alert (msg : String) : Effect
  /-- A call of `localStorage.setItem`, made by `saveInventory`. -/
  | persist : Effect
  /-- A call of `renderInventoryTable`. -/
  | render : Effect
  /-- An assignment to `window.location.href`. -/
  | navigate (url : String) : Effect
  /-- The confirmation modal is displayed for an id. -/
  | confirmModal (itemId : String) : Effect
  /-- The modal container is hidden. -/
  | closeModal : Effect
  /-- A call of `showGeoLocation(name)`. -/
  | geoLookup (name : String) : Effect
  /-- An uncaught `TypeError` (a property of `undefined` is read) ends the handler. -/
  | typeError : Effect
  deriving DecidableEq, Repr

/-- The outcome of a handler: the state it leaves and the effects it had. -/
structure Run where
  state : State
  effects : List Effect
  deriving DecidableEq, Repr

/-- The template literal of the add branch, `ITM` followed by the value of the counter. -/
def itemIdOf (counter : JSInt) : String := "ITM" ++ String.mk (numberToChars counter)

/-- The handler `handleItemFormSubmission(e)`.  The arguments are what the handler reads from the
form: the hidden item id, the trimmed name, the price after `parseFloat` and the quantity
field after `parseInt`. -/
def handleItemFormSubmission (st : State) (itemId name : String) (price : JSNum)
    (quantityInput : JSInt) : Run :=
  let isEditMode : Bool := itemId != ""
  let quantity? : Option JSNum :=
    if isEditMode then (mapGet st.inventoryRegistry itemId).map (fun it => it.quantity.toNum)
    else some quantityInput.toNum
  match quantity? with
  | none => { state := st, effects := [Effect.typeError] }
  | some quantity =>
    let validationErrors := validateItemForm name price quantity
    if validationErrors.length > 0 then
      { state := st
        effects := [Effect.alert ("Validation Error:\n\n" ++ "\n".intercalate validationErrors)] }
    else if isEditMode then
      let registry := mapModify (fun item => { item with name := name, unitPrice := price })
        st.inventoryRegistry itemId
      { state := saveInventory { st with inventoryRegistry := registry }
        effects := [Effect.alert ("[UPDATE SUCCESS] Item " ++ name ++ " (ID: " ++ itemId ++
          ") updated."), Effect.persist, Effect.navigate "index.html"] }
    else
      let id : String := itemIdOf st.itemIDCounter
      let newItem := Item.new id name (JSVal.number price) (JSVal.number quantity)
        (JSVal.number quantity)
      { state := saveInventory
          { st with inventoryRegistry := mapSet st.inventoryRegistry newItem
                    itemIDCounter := st.itemIDCounter + 1 }
        effects := [Effect.alert ("[NEW ENTRY] Item " ++ name ++
          " added. Redirecting to dashboard."), Effect.persist, Effect.navigate "index.html"] }

/-! ## Dashboard actions -/

/-- The data attributes of an action button; an attribute that is absent is represented
by the empty string (both are falsy). -/
structure Button where
  id : String
  action : String
  name : String
  deriving DecidableEq, Repr

/-- The function `showConfirmationModal(itemId)`. -/
def showConfirmationModal (st : State) (itemId : String) : Run :=
  match mapGet st.inventoryRegistry itemId with
  | some _ => { state := st, effects := [Effect.confirmModal itemId] }
  | none => { state := st, effects := [Effect.typeError] }

/-- The function `deleteItem(itemId)`. -/
def deleteItem (st : State) (itemId : String) : Run :=
  { state := saveInventory { st with inventoryRegistry := mapDelete st.inventoryRegistry itemId }
    effects := [Effect.persist, Effect.render, Effect.closeModal] }

/-- The handler `handleStockAction(e)`; `button` is `e.target.closest('.action-btn')`. -/
def handleStockAction (st : State) (button : Option Button) : Run :=
  match button with
  | none => { state := st, effects := [] }
  | some button =>
    let itemId := button.id
    let action := button.action
    if action = "" then { state := st, effects := [] }
    else if action = "geo" then { state := st, effects := [Effect.geoLookup button.name] }
    else if itemId = "" then { state := st, effects := [] }
    else if action = "delete" then showConfirmationModal st itemId
    else
      match mapGet st.inventoryRegistry itemId with
      | none => { state := st, effects := [] }
      | some item =>
        if action = "add" then
          let registry := mapModify (fun item =>
            { item with quantity := item.quantity + 1
                        initialQuantity := item.initialQuantity + 1 }) st.inventoryRegistry itemId
          { state := saveInventory { st with inventoryRegistry := registry }
            effects := [Effect.persist, Effect.render] }
        else if action = "remove" ∧ JSNum.gt item.quantity.toNum 0 then
          let registry := mapModify (fun item => { item with quantity := item.quantity - 1 })
            st.inventoryRegistry itemId
          { state := saveInventory { st with inventoryRegistry := registry }
            effects := [Effect.persist, Effect.render] }
        else if action = "remove" ∧ JSNum.strictEq item.quantity.toNum 0 then
          { state := st, effects := [Effect.alert "Warning: Stock already at 0."] }
        else
          { state := saveInventory st, effects := [Effect.persist, Effect.render] }

/-! ## Metrics -/

/-- The counting loop of `checkAndDisplayLowStockStatus()`: the final `lowStockCount`. -/
def lowStockCount (reg : List Item) : Nat :=
  reg.foldl (fun lowStockCount item =>
    if JSNum.lt item.quantity.toNum LOW_STOCK_THRESHOLD then lowStockCount + 1
    else lowStockCount) 0

/-- The function `checkAndDisplayLowStockStatus()` on a page that has the alert element: the count, and
whether the alert is raised (`lowStockCount > 0`). -/
def checkAndDisplayLowStockStatus (reg : List Item) : Nat × Bool :=
  (lowStockCount reg, decide (lowStockCount reg > 0))

/-- The summing loop of `calculateTotalValue()`: `grandTotalCurrentValue` and
`grandTotalInvestment`. -/
def calculateTotalValue (reg : List Item) : JSNum × JSNum :=
  reg.foldl (fun totals item =>
    (totals.1 + item.calculateCurrentValue, totals.2 + item.calculateInitialInvestment)) (0, 0)

/-! ## Start of a page -/

/-- The five items of the initial dummy data setup. -/
def dummyItems : List Item :=
  [ Item.new "ITM100" "Oscilloscope Probe" (JSVal.number 1250) (JSVal.number 5) (JSVal.number 10),
    Item.new "ITM101" "Breadboard (Large)" (JSVal.number (JSNum.num 250.50)) (JSVal.number 45)
      (JSVal.number 45),
    Item.new "ITM102" "Power Supply Cable" (JSVal.number 80) (JSVal.number 0) (JSVal.number 10),
    Item.new "ITM103" "LED Pack (100pcs)" (JSVal.number 35) (JSVal.number 7) (JSVal.number 20),
    Item.new "ITM104" "Digital Storage Oscilloscope" (JSVal.number 35000) (JSVal.number 1)
      (JSVal.number 1) ]

/-- The top level of the script, run when a page is opened with the given content of the
storage slot: the globals are initialised and, when nothing is stored, the dummy data are
registered and saved. -/
def scriptStart (storage : Option (List Record)) : State :=
  let st : State := { inventoryRegistry := [], itemIDCounter := 100, storage := storage }
  match storage with
  | none => saveInventory { st with inventoryRegistry := dummyItems.foldl mapSet st.inventoryRegistry }
  | some _ => st

/-- The pages of the application. -/
inductive Page where
  | dashboard | addItem | contact
  deriving DecidableEq, Repr

/-- The state once a page is opened: the top level of the script, then `initDashboard()`
and `initForms()`, which call `loadInventory()` on the dashboard and on the item form. -/
def pageLoad (storage : Option (List Record)) : Page → State
  | Page.dashboard => (loadInventory (scriptStart storage)).1
  | Page.addItem => (loadInventory (scriptStart storage)).1
  | Page.contact => scriptStart storage

/-- The operations on the store that the user can trigger. -/
inductive Operation where
  /-- The item form is submitted: a creation when `itemId` is empty, an update otherwise. -/
  | submit (itemId name : String) (price : JSNum) (quantityInput : JSInt) : Operation
  /-- A click that reaches `handleStockAction`: the `add` (+1), `remove` (-1), `delete` and
  `geo` buttons. -/
  | click (button : Option Button) : Operation
  /-- The deletion is confirmed in the modal, which calls `deleteItem`. -/
  | confirmDelete (itemId : String) : Operation

/-- The state after an operation. -/
def applyOperation (st : State) : Operation → State
  | Operation.submit itemId name price quantityInput =>
    (handleItemFormSubmission st itemId name price quantityInput).state
  | Operation.click button => (handleStockAction st button).state
  | Operation.confirmDelete itemId => (deleteItem st itemId).state

/-- The states the application can be in, starting with an empty storage (the dummy data
are then seeded): operations on the store, and pages being opened, which runs the script
afresh on the stored data. -/
inductive Reachable : State → Prop where
  | start (page : Page) : Reachable (pageLoad none page)
  | operation {st : State} (op : Operation) : Reachable st → Reachable (applyOperation st op)
  | openPage {st : State} (page : Page) : Reachable st → Reachable (pageLoad st.storage page)

/-! ## Vocabulary of the properties -/

/-- Whether a run surfaced an error: an alert was raised or an exception was thrown. -/
def Run.reportsError (r : Run) : Bool :=
  r.effects.any fun e =>
    match e with
    | Effect.alert _ => true
    | Effect.typeError => true
    | _ => false

/-- The item that `loadInventory` constructs from a stored record. -/
def itemOfRecord (data : Record) : Item :=
  Item.new data.id data.name data.unitPrice data.quantity data.initialQuantity

/-- A property of items that creation, update and the two stock actions maintain. -/
structure Maintained (P : Item → Prop) : Prop where
  /-- A new item with a positive price and a non-negative integer quantity has it. -/
  create : ∀ (id name : String) (p : ℚ) (z : ℤ), 0 < p → 0 ≤ z →
    P ⟨id, name, JSNum.num p, JSInt.int z, JSInt.int z⟩
  /-- Assigning a name and a positive price keeps it. -/
  update : ∀ (item : Item) (name : String) (p : ℚ), P item → 0 < p →
    P ⟨item.id, name, JSNum.num p, item.quantity, item.initialQuantity⟩
  /-- Raising the quantity and the initial quantity by 1 keeps it. -/
  add : ∀ item : Item, P item →
    P ⟨item.id, item.name, item.unitPrice, item.quantity + 1, item.initialQuantity + 1⟩
  /-- Lowering a positive quantity by 1 keeps it. -/
  remove : ∀ (item : Item) (z : ℤ), P item → item.quantity = JSInt.int z → 0 < z →
    P ⟨item.id, item.name, item.unitPrice, JSInt.int (z - 1), item.initialQuantity⟩

/-- The property holds of every item of the registry and of every item that would be
constructed from the stored records. -/
def Invariant (P : Item → Prop) (st : State) : Prop :=
  (∀ item ∈ st.inventoryRegistry, P item) ∧
  ∀ records, st.storage = some records → ∀ data ∈ records, P (itemOfRecord data)

/-! ## Concrete inputs -/

/-- The dashboard opened on an empty storage: the seeded store. -/
def seededState : State := pageLoad none Page.dashboard

/-- The first of the dummy items. -/
def probeItem : Item := ⟨"ITM100", "Oscilloscope Probe", JSNum.num 1250, 5, 10⟩

/-- A storage slot that holds one record, and the registry and counter of a script that has
just started on it. -/
def oneRecordState : State :=
  scriptStart (some [⟨"ITM100", "Oscilloscope Probe", JSVal.number (JSNum.num 1250),
    JSVal.number (JSNum.num 5), JSVal.number (JSNum.num 10)⟩])

/-! ## Checks on concrete inputs -/

example : parseInt "  -12ab" = JSInt.int (-12) := by decide
example : parseInt "0x1F" = JSInt.int 31 := by decide
example : parseInt "abc" = JSInt.nan := by decide
example : itemIdOf 105 = "ITM105" := by decide
example : itemIdOf (JSInt.int (-7)) = "ITM-7" := by decide
example : jsReplace "ITM105" "ITM" "" = "105" := by decide
example : jsLength "ab😀" = 4 := by decide
example : ((pageLoad none Page.dashboard).inventoryRegistry.map fun it => it.quantity)
    = [5, 45, 0, 7, 1] := by decide
example : (pageLoad none Page.addItem).itemIDCounter = 105 := by decide
example : lowStockCount (pageLoad none Page.dashboard).inventoryRegistry = 4 := by decide
example : (getStockStatus 9).label = "LOW" := by decide

/-! ## Lemmas on numbers -/

namespace JSNum

@[simp]
theorem lt_num (a b : ℚ) : lt (num a) (num b) = decide (a < b) := rfl
@[simp]
theorem le_num (a b : ℚ) : le (num a) (num b) = decide (a ≤ b) := rfl
@[simp]
theorem gt_num (a b : ℚ) : gt (num a) (num b) = decide (b < a) := rfl
@[simp]
theorem strictEq_num (a b : ℚ) : strictEq (num a) (num b) = decide (a = b) := rfl
@[simp]
theorem lt_nan_left (b : JSNum) : lt nan b = false := rfl
@[simp]
theorem lt_nan_right (a : JSNum) : lt a nan = false := by cases a <;> rfl
@[simp]
theorem le_nan_left (b : JSNum) : le nan b = false := rfl
@[simp]
theorem le_nan_right (a : JSNum) : le a nan = false := by cases a <;> rfl
@[simp]
theorem strictEq_nan_left (b : JSNum) : strictEq nan b = false := rfl
@[simp]
theorem isNaN_num (a : ℚ) : isNaN (num a) = false := rfl
@[simp]
theorem isNaN_nan : isNaN nan = true := rfl
@[simp]
theorem add_num (a b : ℚ) : num a + num b = num (a + b) := rfl
@[simp]
theorem sub_num (a b : ℚ) : num a - num b = num (a - b) := rfl
@[simp]
theorem mul_num (a b : ℚ) : num a * num b = num (a * b) := rfl
@[simp]
theorem nan_add (b : JSNum) : nan + b = nan := rfl
@[simp]
theorem add_nan (a : JSNum) : a + nan = nan := by cases a <;> rfl
@[simp]
theorem nan_mul (b : JSNum) : nan * b = nan := rfl
@[simp]
theorem mul_nan (a : JSNum) : a * nan = nan := by cases a <;> rfl
@[simp]
theorem ofNat_eq (n : ℕ) [n.AtLeastTwo] : (OfNat.ofNat n : JSNum) = num (OfNat.ofNat n) := by
  show num ((OfNat.ofNat n : ℕ) : ℚ) = _
  simp
@[simp]
theorem zero_eq : (0 : JSNum) = num 0 := by
  show num ((0 : ℕ) : ℚ) = _
  simp
@[simp]
theorem one_eq : (1 : JSNum) = num 1 := by
  show num ((1 : ℕ) : ℚ) = _
  simp
@[simp]
theorem natCast_eq (n : ℕ) : ((n : ℕ) : JSNum) = num n := rfl

end JSNum

namespace JSInt

@[simp]
theorem toNum_int (z : ℤ) : toNum (int z) = JSNum.num z := rfl
@[simp]
theorem toNum_nan : toNum nan = JSNum.nan := rfl
@[simp]
theorem add_int (a b : ℤ) : int a + int b = int (a + b) := rfl
@[simp]
theorem sub_int (a b : ℤ) : int a - int b = int (a - b) := rfl
@[simp]
theorem int_nan_add (b : JSInt) : nan + b = nan := rfl
@[simp]
theorem nan_sub (b : JSInt) : nan - b = nan := rfl
@[simp]
theorem int_ofNat_eq (n : ℕ) [n.AtLeastTwo] : (OfNat.ofNat n : JSInt) = int (OfNat.ofNat n) := by
  show int ((OfNat.ofNat n : ℕ) : ℤ) = _
  simp
@[simp]
theorem int_zero_eq : (0 : JSInt) = int 0 := rfl
@[simp]
theorem int_one_eq : (1 : JSInt) = int 1 := rfl

end JSInt

@[simp]
theorem LOW_STOCK_THRESHOLD_eq : LOW_STOCK_THRESHOLD = JSNum.num 10 := by
  simp [LOW_STOCK_THRESHOLD]

/-! ## Stock status and low-stock count -/

/-- C5: for every non-negative integer quantity, `getStockStatus` labels it ZERO exactly
when it is 0, LOW exactly when it is strictly between 0 and 10, and HEALTHY exactly when
it is at least 10; the labels of 0, 9 and 10 are ZERO, LOW and HEALTHY. -/
theorem getStockStatus_label (n : ℕ) :
    ((getStockStatus (n : JSNum)).label = "ZERO" ↔ n = 0) ∧
    ((getStockStatus (n : JSNum)).label = "LOW" ↔ 0 < n ∧ n < 10) ∧
    ((getStockStatus (n : JSNum)).label = "HEALTHY" ↔ 10 ≤ n) ∧
    (getStockStatus 0).label = "ZERO" ∧
    (getStockStatus 9).label = "LOW" ∧
    (getStockStatus 10).label = "HEALTHY" := by
  refine ⟨?_, ?_, ?_, by decide, by decide, by decide⟩
  all_goals
    simp only [getStockStatus, JSNum.natCast_eq, JSNum.zero_eq, JSNum.strictEq_num,
      LOW_STOCK_THRESHOLD_eq, JSNum.lt_num, decide_eq_true_eq, Nat.cast_eq_zero,
      Nat.cast_lt_ofNat]
    by_cases h0 : n = 0
    · subst h0; simp
    · by_cases h10 : n < 10
      · simp [h0, h10] <;> omega
      · simp [h0, h10] <;> omega

theorem lowStockCount_foldl (reg : List Item) (k : Nat) :
    reg.foldl (fun lowStockCount item =>
      if JSNum.lt item.quantity.toNum LOW_STOCK_THRESHOLD then lowStockCount + 1
      else lowStockCount) k
      = k + reg.countP (fun item => JSNum.lt item.quantity.toNum (JSNum.num 10)) := by
  induction reg generalizing k with
  | nil => simp
  | cons x xs ih =>
    rw [List.foldl_cons, ih, List.countP_cons, LOW_STOCK_THRESHOLD_eq]
    split <;> omega

/-- C6: the low-stock count of `checkAndDisplayLowStockStatus` is the number of items whose
quantity is strictly less than 10; an item of quantity 0 is counted although
`getStockStatus` labels it ZERO; for quantities 5, 45, 0, 7, 1 the count is 4. -/
theorem lowStockCount_spec (reg : List Item) :
    (checkAndDisplayLowStockStatus reg).1
      = reg.countP (fun item => JSNum.lt item.quantity.toNum (JSNum.num 10)) ∧
    (∀ item : Item, item.quantity = JSInt.int 0 →
      JSNum.lt item.quantity.toNum LOW_STOCK_THRESHOLD = true ∧
      (getStockStatus item.quantity.toNum).label = "ZERO" ∧
      (checkAndDisplayLowStockStatus [item]).1 = 1) ∧
    (∀ items : List Item, items.map (fun item => item.quantity) = [5, 45, 0, 7, 1] →
      (checkAndDisplayLowStockStatus items).1 = 4) := by
  refine ⟨?_, ?_, ?_⟩
  · show lowStockCount reg = _
    unfold lowStockCount
    rw [lowStockCount_foldl, zero_add]
  · intro item h
    simp [checkAndDisplayLowStockStatus, lowStockCount, getStockStatus, h]
  · intro items h
    show lowStockCount items = 4
    unfold lowStockCount
    rw [lowStockCount_foldl, zero_add]
    have hmap : List.countP (fun item : Item => JSNum.lt item.quantity.toNum (JSNum.num 10)) items
        = List.countP (fun q : JSInt => JSNum.lt q.toNum (JSNum.num 10))
          (items.map fun item => item.quantity) := by
      rw [List.countP_map]; rfl
    rw [hmap, h]
    decide

/-! ## Form validation -/

/-- C7: `validateItemForm` returns the empty list exactly when the name has at least 3
characters, the price is a number greater than 0 and the quantity is a number greater than
or equal to 0; in general it returns one message per violated rule, in the order name,
price, quantity. -/
theorem validateItemForm_spec (name : String) (price quantity : JSNum) :
    (validateItemForm name price quantity = [] ↔
      3 ≤ jsLength name ∧ (∃ p : ℚ, price = JSNum.num p ∧ 0 < p) ∧
        (∃ q : ℚ, quantity = JSNum.num q ∧ 0 ≤ q)) ∧
    List.Sublist (validateItemForm name price quantity)
      ["Item Name must be at least 3 characters.", "Unit Price must be a positive number.",
        "Quantity must be zero or a positive integer."] ∧
    ("Item Name must be at least 3 characters." ∈ validateItemForm name price quantity ↔
      ¬ 3 ≤ jsLength name) ∧
    ("Unit Price must be a positive number." ∈ validateItemForm name price quantity ↔
      ¬ ∃ p : ℚ, price = JSNum.num p ∧ 0 < p) ∧
    ("Quantity must be zero or a positive integer." ∈ validateItemForm name price quantity ↔
      ¬ ∃ q : ℚ, quantity = JSNum.num q ∧ 0 ≤ q) := by
  have hp : (JSNum.le price 0 || JSNum.isNaN price) = true ↔
      ¬ ∃ p : ℚ, price = JSNum.num p ∧ 0 < p := by
    cases price <;> simp
  have hq : (JSNum.lt quantity 0 || JSNum.isNaN quantity) = true ↔
      ¬ ∃ q : ℚ, quantity = JSNum.num q ∧ 0 ≤ q := by
    cases quantity <;> simp
  have h1' : 3 ≤ jsLength name ↔ ¬ jsLength name < 3 := by omega
  unfold validateItemForm
  rw [h1']
  by_cases h1 : jsLength name < 3 <;>
    by_cases h2 : (JSNum.le price 0 || JSNum.isNaN price) = true <;>
    by_cases h3 : (JSNum.lt quantity 0 || JSNum.isNaN quantity) = true <;>
    have h2' := hp <;> have h3' := hq <;>
    simp only [h2, h3, true_iff, false_iff, not_not, Bool.false_eq_true] at h2' h3' <;>
    simp only [h1, h2, h3, if_true, if_false, h2', h3', not_true_eq_false, not_false_eq_true,
      and_true, and_false, true_and, false_and, iff_true, iff_false, Bool.false_eq_true] <;>
    decide

/-! ## Lemmas on the registry -/

theorem mapGet_cons (x : Item) (xs : List Item) (id : String) :
    mapGet (x :: xs) id = if x.id = id then some x else mapGet xs id := by
  by_cases h : x.id = id <;> simp [mapGet, List.find?_cons, h]

/-- An entry that `get` finds splits the registry around its first occurrence. -/
theorem mapGet_split {reg : List Item} {id : String} {item : Item}
    (h : mapGet reg id = some item) :
    ∃ pre post, reg = pre ++ item :: post ∧ (∀ x ∈ pre, x.id ≠ id) ∧ item.id = id := by
  induction reg with
  | nil => simp [mapGet] at h
  | cons x xs ih =>
    rw [mapGet_cons] at h
    by_cases hx : x.id = id
    · rw [if_pos hx] at h
      cases h
      exact ⟨[], xs, rfl, by simp, hx⟩
    · rw [if_neg hx] at h
      obtain ⟨pre, post, h1, h2, h3⟩ := ih h
      refine ⟨x :: pre, post, by simp [h1], ?_, h3⟩
      intro y hy
      rcases List.mem_cons.1 hy with rfl | hy
      · exact hx
      · exact h2 y hy

theorem mapModify_split (f : Item → Item) (pre post : List Item) (item : Item) (id : String)
    (hpre : ∀ x ∈ pre, x.id ≠ id) (hid : item.id = id) :
    mapModify f (pre ++ item :: post) id = pre ++ f item :: post := by
  induction pre with
  | nil => simp [mapModify, hid]
  | cons x xs ih =>
    have hx : x.id ≠ id := hpre x (by simp)
    rw [List.cons_append, mapModify, if_neg hx, ih (fun y hy => hpre y (by simp [hy])),
      List.cons_append]

theorem mapModify_of_get_none (f : Item → Item) {reg : List Item} {id : String}
    (h : mapGet reg id = none) : mapModify f reg id = reg := by
  induction reg with
  | nil => rfl
  | cons x xs ih =>
    rw [mapGet_cons] at h
    by_cases hx : x.id = id
    · simp [hx] at h
    · rw [if_neg hx] at h
      simp [mapModify, hx, ih h]

/-! ## Stock actions -/

/-- C9, as stated, fails: on the seeded store the `add` action for the absent id `ITM999`
reports no error at all. -/
theorem handleStockAction_absent_reports_nothing :
    mapGet (pageLoad none Page.dashboard).inventoryRegistry "ITM999" = none ∧
    (handleStockAction (pageLoad none Page.dashboard)
      (some ⟨"ITM999", "add", ""⟩)).reportsError = false := by
  decide

/-- C9, amended: for an id that is absent from the registry, the `add` and the `remove`
action do nothing at all: the state is unchanged, nothing is persisted or rendered, and no
error is reported. -/
theorem handleStockAction_absent (st : State) (itemId action name : String)
    (haction : action = "add" ∨ action = "remove")
    (hget : mapGet st.inventoryRegistry itemId = none) :
    handleStockAction st (some ⟨itemId, action, name⟩) = { state := st, effects := [] } ∧
    (handleStockAction st (some ⟨itemId, action, name⟩)).reportsError = false := by
  have h : handleStockAction st (some ⟨itemId, action, name⟩)
      = { state := st, effects := [] } := by
    rcases haction with rfl | rfl
    · by_cases hid : itemId = "" <;>
        simp [handleStockAction, hid, hget, show ("add" : String) ≠ "" by decide,
          show ("add" : String) ≠ "geo" by decide, show ("add" : String) ≠ "delete" by decide]
    · by_cases hid : itemId = "" <;>
        simp [handleStockAction, hid, hget, show ("remove" : String) ≠ "" by decide,
          show ("remove" : String) ≠ "geo" by decide,
          show ("remove" : String) ≠ "delete" by decide]
  rw [h]
  exact ⟨rfl, rfl⟩

/-! ## Persistence round trip -/

theorem parseFloatValue_jsonOfNumber (x : JSNum) : parseFloatValue (jsonOfNumber x) = x := by
  cases x <;> rfl

theorem parseIntValue_jsonOfNumber (x : JSInt) : parseIntValue (jsonOfNumber x.toNum) = x := by
  cases x with
  | nan => rfl
  | int z => simp [JSInt.toNum, jsonOfNumber, parseIntValue]

/-- An item that is written by `JSON.stringify` and constructed again from its record is the
same item. -/
theorem itemOfRecord_jsonOfItem (item : Item) : itemOfRecord (jsonOfItem item) = item := by
  simp [itemOfRecord, jsonOfItem, Item.new, parseFloatValue_jsonOfNumber,
    parseIntValue_jsonOfNumber]

theorem mapSet_of_not_mem (reg : List Item) (item : Item)
    (h : ∀ x ∈ reg, x.id ≠ item.id) : mapSet reg item = reg ++ [item] := by
  induction reg with
  | nil => rfl
  | cons x xs ih =>
    have hx : x.id ≠ item.id := h x (by simp)
    rw [mapSet, if_neg hx, ih (fun y hy => h y (by simp [hy])), List.cons_append]

theorem foldl_mapSet_of_nodup (f : Item → Item) (hf : ∀ x, (f x).id = x.id)
    (items acc : List Item)
    (hnodup : (items.map fun it => it.id).Nodup)
    (hdisj : ∀ x ∈ acc, ∀ y ∈ items, x.id ≠ y.id) :
    items.foldl (fun reg x => mapSet reg (f x)) acc = acc ++ items.map f := by
  induction items generalizing acc with
  | nil => simp
  | cons y ys ih =>
    rw [List.map_cons, List.nodup_cons] at hnodup
    rw [List.foldl_cons, mapSet_of_not_mem acc (f y)
      (fun x hx => by rw [hf]; exact hdisj x hx y (by simp))]
    rw [ih (acc ++ [f y]) hnodup.2, List.map_cons, List.append_assoc, List.singleton_append]
    intro x hx z hz
    rcases List.mem_append.1 hx with hx | hx
    · exact hdisj x hx z (by simp [hz])
    · rw [List.mem_singleton] at hx
      subst hx
      rw [hf]
      intro heq
      exact hnodup.1 (List.mem_map.2 ⟨z, hz, heq.symm⟩)

theorem loadInventory_saveInventory_registry (st : State)
    (hnodup : (st.inventoryRegistry.map fun it => it.id).Nodup) :
    (loadInventory (saveInventory st)).1.inventoryRegistry
      = st.inventoryRegistry.map fun item => itemOfRecord (jsonOfItem item) := by
  simp only [loadInventory, saveInventory, List.foldl_map]
  have h := foldl_mapSet_of_nodup (fun item => itemOfRecord (jsonOfItem item))
    (fun x => rfl) st.inventoryRegistry [] hnodup (by simp)
  simpa [itemOfRecord, jsonOfItem] using h

theorem digitValue_digitChar (d : Nat) (h : d < 10) : digitValue 10 (digitChar d) = some d := by
  interval_cases d <;> decide

theorem isWhiteSpace_digitChar (d : Nat) (h : d < 10) : isWhiteSpace (digitChar d) = false := by
  interval_cases d <;> decide

theorem digitChar_not_special (d : Nat) (h : d < 10) :
    digitChar d ≠ '-' ∧ digitChar d ≠ '+' ∧ digitChar d ≠ 'x' ∧ digitChar d ≠ 'X' := by
  interval_cases d <;> decide

theorem digitsValue_append (radix : Nat) (ds : List Nat) (d : Nat) :
    digitsValue radix (ds ++ [d]) = digitsValue radix ds * radix + d := by
  simp [digitsValue, List.foldl_append]

theorem natDigits_spec (fuel n : Nat) (h : n < fuel) :
    digitsValue 10 (natDigits fuel n) = n ∧ (∀ d ∈ natDigits fuel n, d < 10) ∧
      natDigits fuel n ≠ [] := by
  induction fuel generalizing n with
  | zero => omega
  | succ fuel ih =>
    unfold natDigits
    by_cases hn : n < 10
    · simp [hn, digitsValue]
    · rw [if_neg hn]
      obtain ⟨h1, h2, _⟩ := ih (n / 10) (by omega)
      refine ⟨?_, ?_, by simp⟩
      · rw [digitsValue_append, h1]
        omega
      · intro d hd
        rcases List.mem_append.1 hd with hd | hd
        · exact h2 d hd
        · rw [List.mem_singleton] at hd
          omega

theorem digitPrefix_map_digitChar (ds : List Nat) (h : ∀ d ∈ ds, d < 10) :
    digitPrefix 10 (ds.map digitChar) = ds := by
  induction ds with
  | nil => rfl
  | cons d ds ih =>
    rw [List.map_cons, digitPrefix, digitValue_digitChar d (h d (by simp))]
    simp only
    rw [ih (fun e he => h e (by simp [he]))]

theorem stripHexPrefix_map_digitChar (ds : List Nat) (h : ∀ d ∈ ds, d < 10) :
    stripHexPrefix (ds.map digitChar) = (10, ds.map digitChar) := by
  match ds, h with
  | [], _ => rfl
  | [_], _ => rfl
  | d0 :: d1 :: r, h =>
    have h1 := digitChar_not_special d1 (h d1 (by simp))
    simp [stripHexPrefix, h1.2.2.1, h1.2.2.2]

theorem parseIntDigits (neg : Bool) (ds : List Nat) (h : ∀ d ∈ ds, d < 10) (hne : ds ≠ []) :
    parseIntChars ((if neg then ['-'] else []) ++ ds.map digitChar)
      = JSInt.int (if neg then -(digitsValue 10 ds : ℤ) else (digitsValue 10 ds : ℤ)) := by
  match ds, h, hne with
  | d :: r, h, _ =>
    have hd := h d (by simp)
    have hw := isWhiteSpace_digitChar d hd
    have hs := digitChar_not_special d hd
    have hx := stripHexPrefix_map_digitChar (d :: r) h
    have hp := digitPrefix_map_digitChar (d :: r) h
    rw [List.map_cons] at hx hp
    cases neg
    · simp [parseIntChars, List.dropWhile, hw, stripSign, hs.1, hs.2.1, hx, hp]
    · simp [parseIntChars, List.dropWhile, show isWhiteSpace '-' = false by decide, stripSign,
        hx, hp]

theorem parseIntChars_natToChars (n : Nat) :
    parseIntChars (natToChars n) = JSInt.int (n : ℤ) := by
  obtain ⟨h1, h2, h3⟩ := natDigits_spec (n + 1) n (by omega)
  have h := parseIntDigits false (natDigits (n + 1) n) h2 h3
  simpa [natToChars, h1] using h

theorem parseIntChars_numberToChars (z : ℤ) :
    parseIntChars (numberToChars (JSInt.int z)) = JSInt.int z := by
  cases z with
  | ofNat n => exact parseIntChars_natToChars n
  | negSucc n =>
    obtain ⟨h1, h2, h3⟩ := natDigits_spec (n + 1 + 1) (n + 1) (by omega)
    have h := parseIntDigits true (natDigits (n + 1 + 1) (n + 1)) h2 h3
    simp only [if_true, h1] at h
    simp only [numberToChars, natToChars]
    rw [show '-' :: List.map digitChar (natDigits (n + 1 + 1) (n + 1))
      = ['-'] ++ List.map digitChar (natDigits (n + 1 + 1) (n + 1)) from rfl, h]
    rfl

theorem replaceFirst_prefix_ITM (s : List Char) :
    replaceFirst ['I', 'T', 'M'] [] ('I' :: 'T' :: 'M' :: s) = s := by
  simp [replaceFirst, List.isPrefixOf]

theorem parseInt_itemIdOf (z : ℤ) :
    parseInt (jsReplace (itemIdOf (JSInt.int z)) "ITM" "") = JSInt.int z := by
  have h : (itemIdOf (JSInt.int z)).data
      = 'I' :: 'T' :: 'M' :: numberToChars (JSInt.int z) := by
    simp [itemIdOf, String.data_append]
  simp only [parseInt, jsReplace, h]
  rw [replaceFirst_prefix_ITM]
  exact parseIntChars_numberToChars z

/-! ## Creation of an item -/

theorem mem_mapSet {reg : List Item} {item x : Item} (h : x ∈ mapSet reg item) :
    x ∈ reg ∨ x = item := by
  induction reg with
  | nil =>
    simp only [mapSet, List.mem_singleton] at h
    exact Or.inr h
  | cons y ys ih =>
    rw [mapSet] at h
    by_cases hy : y.id = item.id
    · rw [if_pos hy] at h
      rcases List.mem_cons.1 h with h | h
      · exact Or.inr h
      · exact Or.inl (List.mem_cons_of_mem _ h)
    · rw [if_neg hy] at h
      rcases List.mem_cons.1 h with h | h
      · exact Or.inl (by simp [h])
      · rcases ih h with h | h
        · exact Or.inl (List.mem_cons_of_mem _ h)
        · exact Or.inr h

theorem mem_foldl_mapSet {α : Type} (f : α → Item) (xs : List α) (acc : List Item) (x : Item)
    (h : x ∈ xs.foldl (fun reg data => mapSet reg (f data)) acc) :
    x ∈ acc ∨ ∃ data ∈ xs, x = f data := by
  induction xs generalizing acc with
  | nil => exact Or.inl h
  | cons y ys ih =>
    rw [List.foldl_cons] at h
    rcases ih _ h with h | ⟨data, hdata, hx⟩
    · rcases mem_mapSet h with h | h
      · exact Or.inl h
      · exact Or.inr ⟨y, by simp, h⟩
    · exact Or.inr ⟨data, by simp [hdata], hx⟩

theorem mem_loadInventory {st : State} {records : List Record} (hst : st.storage = some records)
    {x : Item} (h : x ∈ (loadInventory st).1.inventoryRegistry) :
    ∃ data ∈ records, x = itemOfRecord data := by
  simp only [loadInventory, hst] at h
  rcases mem_foldl_mapSet itemOfRecord records [] x h with h | h
  · simp at h
  · exact h

theorem foldl_mathMax (records : List Record) (a : ℤ)
    (h : ∀ r ∈ records, ∃ z : ℤ, parseInt (jsReplace r.id "ITM" "") = JSInt.int z) :
    ∃ m : ℤ, records.foldl (fun max item =>
        JSInt.max max (parseInt (jsReplace item.id "ITM" ""))) (JSInt.int a) = JSInt.int m ∧
      a ≤ m ∧
      ∀ r ∈ records, ∀ z : ℤ, parseInt (jsReplace r.id "ITM" "") = JSInt.int z → z ≤ m := by
  induction records generalizing a with
  | nil => exact ⟨a, rfl, le_refl a, by simp⟩
  | cons r rs ih =>
    obtain ⟨z, hz⟩ := h r (by simp)
    obtain ⟨m, hm, ham, hall⟩ := ih (max a z) (fun r' hr' => h r' (by simp [hr']))
    refine ⟨m, ?_, le_trans (le_max_left a z) ham, ?_⟩
    · rw [List.foldl_cons, hz]
      exact hm
    · intro r' hr' z' hz'
      rcases List.mem_cons.1 hr' with rfl | hr'
      · rw [hz] at hz'
        cases hz'
        exact le_trans (le_max_right a z) ham
      · exact hall r' hr' z' hz'

/-- The counter that `loadInventory` seeds is an integer above 100 and above the number of
every stored id. -/
theorem loadInventory_counter {st : State} {records : List Record}
    (hst : st.storage = some records)
    (h : ∀ r ∈ records, ∃ z : ℤ, parseInt (jsReplace r.id "ITM" "") = JSInt.int z) :
    ∃ c : ℤ, (loadInventory st).1.itemIDCounter = JSInt.int c ∧ 100 < c ∧
      ∀ x ∈ (loadInventory st).1.inventoryRegistry, x.id ≠ itemIdOf (JSInt.int c) := by
  obtain ⟨m, hm, ham, hall⟩ := foldl_mathMax records 100 h
  refine ⟨m + 1, ?_, by omega, ?_⟩
  · simp only [loadInventory, hst]
    rw [show (100 : JSInt) = JSInt.int 100 from rfl, hm]
    rfl
  · intro x hx heq
    obtain ⟨data, hdata, rfl⟩ := mem_loadInventory hst hx
    have h1 := hall data hdata (m + 1)
    have h2 : (itemOfRecord data).id = data.id := rfl
    rw [h2] at heq
    rw [heq, parseInt_itemIdOf] at h1
    have := h1 rfl
    omega

theorem validateItemForm_nil {name : String} {price quantity : JSNum}
    (h : validateItemForm name price quantity = []) :
    3 ≤ jsLength name ∧ (∃ p : ℚ, price = JSNum.num p ∧ 0 < p) ∧
      (∃ q : ℚ, quantity = JSNum.num q ∧ 0 ≤ q) := by
  unfold validateItemForm at h
  by_cases h1 : jsLength name < 3 <;>
    by_cases h2 : (JSNum.le price 0 || JSNum.isNaN price) = true <;>
    by_cases h3 : (JSNum.lt quantity 0 || JSNum.isNaN quantity) = true <;>
    simp only [h1, h2, h3, if_true, if_false, Bool.false_eq_true] at h <;>
    first
      | exact absurd h (by decide)
      | skip
  refine ⟨by omega, ?_, ?_⟩
  · cases price with
    | nan => simp at h2
    | num p => exact ⟨p, rfl, by simpa using h2⟩
  · cases quantity with
    | nan => simp at h3
    | num q => exact ⟨q, rfl, by simpa using h3⟩

theorem parseIntValue_number_toNum (z : ℤ) :
    parseIntValue (JSVal.number (JSInt.toNum (JSInt.int z))) = JSInt.int z := by
  simp [JSInt.toNum, parseIntValue]

theorem forall_mapSet {P : Item → Prop} {reg : List Item} {item : Item}
    (h : ∀ x ∈ reg, P x) (hitem : P item) : ∀ x ∈ mapSet reg item, P x := by
  intro x hx
  rcases mem_mapSet hx with hx | rfl
  · exact h x hx
  · exact hitem

theorem mem_mapDelete {reg : List Item} {id : String} {x : Item} (h : x ∈ mapDelete reg id) :
    x ∈ reg := by
  induction reg with
  | nil => simp [mapDelete] at h
  | cons y ys ih =>
    rw [mapDelete] at h
    by_cases hy : y.id = id
    · rw [if_pos hy] at h
      exact List.mem_cons_of_mem _ h
    · rw [if_neg hy] at h
      rcases List.mem_cons.1 h with h | h
      · simp [h]
      · exact List.mem_cons_of_mem _ (ih h)

theorem forall_mapModify {P : Item → Prop} {reg : List Item} {id : String} {item : Item}
    (f : Item → Item) (hget : mapGet reg id = some item) (h : ∀ x ∈ reg, P x)
    (hf : P (f item)) : ∀ x ∈ mapModify f reg id, P x := by
  obtain ⟨pre, post, hreg, hpre, hid⟩ := mapGet_split hget
  rw [hreg, mapModify_split f pre post item id hpre hid]
  rw [hreg] at h
  intro x hx
  rcases List.mem_append.1 hx with hx | hx
  · exact h x (List.mem_append_left _ hx)
  · rcases List.mem_cons.1 hx with rfl | hx
    · exact hf
    · exact h x (List.mem_append_right _ (List.mem_cons_of_mem _ hx))

theorem mem_of_mapGet {reg : List Item} {id : String} {item : Item}
    (h : mapGet reg id = some item) : item ∈ reg := by
  obtain ⟨pre, post, hreg, _, _⟩ := mapGet_split h
  rw [hreg]
  simp

/-- Every operation either leaves the state as it is, or saves a registry that has every
maintained property the former registry had (the storage is then the saved registry). -/
theorem applyOperation_cases (st : State) (op : Operation) :
    applyOperation st op = st ∨
    ∃ reg counter,
      applyOperation st op
        = saveInventory { inventoryRegistry := reg, itemIDCounter := counter, storage := st.storage } ∧
      ∀ P : Item → Prop, Maintained P →
        (∀ x ∈ st.inventoryRegistry, P x) → ∀ x ∈ reg, P x := by
  cases op with
  | submit itemId name price quantityInput =>
    by_cases hid : itemId = ""
    · subst hid
      by_cases hvalid : validateItemForm name price quantityInput.toNum = []
      · right
        obtain ⟨_, ⟨p, rfl, hp⟩, ⟨q, hq, hq0⟩⟩ := validateItemForm_nil hvalid
        cases quantityInput with
        | nan => simp at hq
        | int z =>
          have hz : (0 : ℤ) ≤ z := by
            simp only [JSInt.toNum_int, JSNum.num.injEq] at hq
            rw [← hq] at hq0
            exact_mod_cast hq0
          refine ⟨mapSet st.inventoryRegistry (Item.new (itemIdOf st.itemIDCounter) name
            (JSVal.number (JSNum.num p)) (JSVal.number (JSInt.toNum (JSInt.int z)))
            (JSVal.number (JSInt.toNum (JSInt.int z)))), st.itemIDCounter + 1, ?_, ?_⟩
          · simp only [applyOperation, handleItemFormSubmission, bne_self_eq_false,
              Bool.false_eq_true, if_false, hvalid, List.length_nil, gt_iff_lt,
              lt_self_iff_false]
          · intro P hP h
            apply forall_mapSet h
            simp only [Item.new, parseFloatValue, parseIntValue_number_toNum]
            exact hP.create _ _ p z hp hz
      · left
        have hlen : (validateItemForm name price quantityInput.toNum).length > 0 :=
          List.length_pos.2 hvalid
        simp [applyOperation, handleItemFormSubmission, hlen]
    · cases hget : mapGet st.inventoryRegistry itemId with
      | none =>
        left
        simp [applyOperation, handleItemFormSubmission, hid, hget]
      | some item =>
        by_cases hvalid : validateItemForm name price item.quantity.toNum = []
        · right
          obtain ⟨_, ⟨p, rfl, hp⟩, _⟩ := validateItemForm_nil hvalid
          refine ⟨mapModify (fun item => { item with name := name, unitPrice := JSNum.num p })
            st.inventoryRegistry itemId, st.itemIDCounter, ?_, ?_⟩
          · simp only [applyOperation, handleItemFormSubmission, hid, hget, bne_iff_ne, ne_eq,
              not_false_eq_true, decide_True, if_true, Option.map_some', hvalid,
              List.length_nil, gt_iff_lt, lt_self_iff_false, if_false]
          · intro P hP h
            exact forall_mapModify _ hget h (hP.update item name p (h item (mem_of_mapGet hget)) hp)
        · left
          have hlen : (validateItemForm name price item.quantity.toNum).length > 0 :=
            List.length_pos.2 hvalid
          simp [applyOperation, handleItemFormSubmission, hid, hget, hlen]
  | click button =>
    cases button with
    | none => exact Or.inl rfl
    | some button =>
      obtain ⟨itemId, action, bname⟩ := button
      by_cases ha : action = ""
      · left; simp [applyOperation, handleStockAction, ha]
      by_cases hg : action = "geo"
      · left; simp [applyOperation, handleStockAction, hg]
      by_cases hid : itemId = ""
      · left; simp [applyOperation, handleStockAction, ha, hg, hid]
      by_cases hd : action = "delete"
      · left
        simp only [applyOperation, handleStockAction, ha, hg, hid, hd, if_false, if_true,
          showConfirmationModal]
        cases mapGet st.inventoryRegistry itemId <;> rfl
      cases hget : mapGet st.inventoryRegistry itemId with
      | none => left; simp [applyOperation, handleStockAction, ha, hg, hid, hd, hget]
      | some item =>
        by_cases hadd : action = "add"
        · right
          refine ⟨mapModify (fun item => { item with quantity := item.quantity + 1
                                                     initialQuantity := item.initialQuantity + 1 })
            st.inventoryRegistry itemId, st.itemIDCounter, ?_, ?_⟩
          · subst hadd
            simp only [applyOperation, handleStockAction, ha, hg, hid, hd, hget, if_false,
              if_true]
          · intro P hP h
            exact forall_mapModify _ hget h (hP.add item (h item (mem_of_mapGet hget)))
        · by_cases hrem : action = "remove" ∧ JSNum.gt item.quantity.toNum 0 = true
          · right
            refine ⟨mapModify (fun item => { item with quantity := item.quantity - 1 })
              st.inventoryRegistry itemId, st.itemIDCounter, ?_, ?_⟩
            · obtain ⟨hrem1, hrem2⟩ := hrem
              subst hrem1
              simp only [applyOperation, handleStockAction, ha, hg, hid, hd, hget, hadd, hrem2,
                if_false, if_true, and_self]
            · intro P hP h
              apply forall_mapModify _ hget h
              cases hq : item.quantity with
              | nan => rw [hq] at hrem; simp [JSNum.gt] at hrem
              | int z =>
                rw [hq] at hrem
                have hz : 0 < z := by simpa using hrem.2
                have := hP.remove item z (h item (mem_of_mapGet hget)) hq hz
                simpa [hq] using this
          · by_cases hzero : action = "remove" ∧ JSNum.strictEq item.quantity.toNum 0 = true
            · left
              obtain ⟨hzero1, hzero2⟩ := hzero
              subst hzero1
              have hrem2 : ¬ JSNum.gt item.quantity.toNum 0 = true := fun hc => hrem ⟨rfl, hc⟩
              simp only [JSNum.zero_eq] at hrem2 hzero2
              simp [applyOperation, handleStockAction, ha, hg, hid, hd, hget, hadd, hrem2,
                hzero2]
            · right
              refine ⟨st.inventoryRegistry, st.itemIDCounter, ?_, fun P _ h => h⟩
              simp only [applyOperation, handleStockAction, ha, hg, hid, hd, hget, hadd, hrem,
                hzero, if_false]
  | confirmDelete itemId =>
    right
    refine ⟨mapDelete st.inventoryRegistry itemId, st.itemIDCounter, rfl, ?_⟩
    intro P _ h x hx
    exact h x (mem_mapDelete hx)

theorem invariant_saveInventory {P : Item → Prop} (st : State)
    (h : ∀ item ∈ st.inventoryRegistry, P item) : Invariant P (saveInventory st) := by
  refine ⟨h, ?_⟩
  intro records hrec data hdata
  simp only [saveInventory, Option.some.injEq] at hrec
  subst hrec
  obtain ⟨item, hitem, rfl⟩ := List.mem_map.1 hdata
  rw [itemOfRecord_jsonOfItem]
  exact h item hitem

theorem invariant_loadInventory {P : Item → Prop} (st : State) (h : Invariant P st) :
    Invariant P (loadInventory st).1 := by
  cases hst : st.storage with
  | none =>
    have hload : (loadInventory st).1 = st := by simp [loadInventory, hst]
    rw [hload]
    exact h
  | some records =>
    refine ⟨?_, ?_⟩
    · intro item hitem
      obtain ⟨data, hdata, rfl⟩ := mem_loadInventory hst hitem
      exact h.2 records hst data hdata
    · intro records' hrec
      have hsame : (loadInventory st).1.storage = st.storage := by simp [loadInventory, hst]
      rw [hsame] at hrec
      exact h.2 records' hrec

theorem dummyItems_registered : dummyItems.foldl mapSet [] = dummyItems := by rfl

theorem invariant_scriptStart {P : Item → Prop} (hdummy : ∀ item ∈ dummyItems, P item)
    (storage : Option (List Record))
    (h : ∀ records, storage = some records → ∀ data ∈ records, P (itemOfRecord data)) :
    Invariant P (scriptStart storage) := by
  cases storage with
  | none =>
    apply invariant_saveInventory
    show ∀ item ∈ dummyItems.foldl mapSet [], P item
    rw [dummyItems_registered]
    exact hdummy
  | some records =>
    refine ⟨?_, ?_⟩
    · intro item hitem
      simp [scriptStart] at hitem
    · exact h

theorem invariant_pageLoad {P : Item → Prop} (hdummy : ∀ item ∈ dummyItems, P item)
    (storage : Option (List Record))
    (h : ∀ records, storage = some records → ∀ data ∈ records, P (itemOfRecord data))
    (page : Page) : Invariant P (pageLoad storage page) := by
  have hstart := invariant_scriptStart hdummy storage h
  cases page with
  | dashboard => exact invariant_loadInventory _ hstart
  | addItem => exact invariant_loadInventory _ hstart
  | contact => exact hstart

theorem invariant_applyOperation {P : Item → Prop} (hP : Maintained P) (st : State)
    (op : Operation) (h : Invariant P st) : Invariant P (applyOperation st op) := by
  rcases applyOperation_cases st op with heq | ⟨reg, counter, heq, hreg⟩
  · rw [heq]
    exact h
  · rw [heq]
    exact invariant_saveInventory _ (hreg P hP h.1)

/-- A maintained property that the dummy items have holds in every reachable state. -/
theorem invariant_of_reachable {P : Item → Prop} (hP : Maintained P)
    (hdummy : ∀ item ∈ dummyItems, P item) {st : State} (h : Reachable st) :
    Invariant P st := by
  induction h with
  | start page => exact invariant_pageLoad hdummy none (by simp) page
  | operation op _ ih => exact invariant_applyOperation hP _ op ih
  | openPage page _ ih => exact invariant_pageLoad hdummy _ ih.2 page

/-! ## Quantity is never negative -/

theorem le_zero_toNum_iff (x : JSInt) :
    JSNum.le 0 x.toNum = true ↔ ∃ z : ℤ, x = JSInt.int z ∧ 0 ≤ z := by
  cases x with
  | nan => simp
  | int z => simp

theorem maintained_quantity_nonneg :
    Maintained fun item => JSNum.le 0 item.quantity.toNum = true := by
  refine ⟨?_, ?_, ?_, ?_⟩
  · intro id name p z _ hz
    simpa using hz
  · intro item name p h _
    exact h
  · intro item h
    obtain ⟨z, hz, hz0⟩ := (le_zero_toNum_iff _).1 h
    simp only [hz, JSInt.int_one_eq, JSInt.add_int]
    exact (le_zero_toNum_iff _).2 ⟨z + 1, rfl, by omega⟩
  · intro item z _ _ hz
    exact (le_zero_toNum_iff _).2 ⟨z - 1, rfl, by omega⟩

theorem dummyItems_quantity_nonneg :
    ∀ item ∈ dummyItems, JSNum.le 0 item.quantity.toNum = true := by decide

theorem le_toNum_iff (x y : JSInt) :
    JSNum.le x.toNum y.toNum = true ↔ ∃ a b : ℤ, x = JSInt.int a ∧ y = JSInt.int b ∧ a ≤ b := by
  cases x <;> cases y <;> simp

theorem maintained_quantity_le :
    Maintained fun item =>
      JSNum.le item.quantity.toNum item.initialQuantity.toNum = true ∧
        JSNum.le 0 item.unitPrice = true := by
  refine ⟨?_, ?_, ?_, ?_⟩
  · intro id name p z hp _
    simpa using le_of_lt hp
  · intro item name p h hp
    exact ⟨h.1, by simpa using le_of_lt hp⟩
  · intro item h
    obtain ⟨a, b, ha, hb, hab⟩ := (le_toNum_iff _ _).1 h.1
    refine ⟨?_, h.2⟩
    simp only [ha, hb, JSInt.int_one_eq, JSInt.add_int]
    exact (le_toNum_iff _ _).2 ⟨a + 1, b + 1, rfl, rfl, by omega⟩
  · intro item z h hz hpos
    obtain ⟨a, b, ha, hb, hab⟩ := (le_toNum_iff _ _).1 h.1
    refine ⟨?_, h.2⟩
    rw [hz] at ha
    cases ha
    simp only [hb]
    exact (le_toNum_iff _ _).2 ⟨z - 1, b, rfl, rfl, by omega⟩

theorem maintained_quantity_le_only :
    Maintained fun item => JSNum.le item.quantity.toNum item.initialQuantity.toNum = true := by
  refine ⟨?_, ?_, ?_, ?_⟩
  · intro id name p z _ _
    simp
  · intro item name p h _
    exact h
  · intro item h
    obtain ⟨a, b, ha, hb, hab⟩ := (le_toNum_iff _ _).1 h
    simp only [ha, hb, JSInt.int_one_eq, JSInt.add_int]
    exact (le_toNum_iff _ _).2 ⟨a + 1, b + 1, rfl, rfl, by omega⟩
  · intro item z h hz hpos
    obtain ⟨a, b, ha, hb, hab⟩ := (le_toNum_iff _ _).1 h
    rw [hz] at ha
    cases ha
    simp only [hb]
    exact (le_toNum_iff _ _).2 ⟨z - 1, b, rfl, rfl, by omega⟩

theorem dummyItems_quantity_le :
    ∀ item ∈ dummyItems,
      JSNum.le item.quantity.toNum item.initialQuantity.toNum = true ∧
        JSNum.le 0 item.unitPrice = true := by
  intro item hitem
  simp only [dummyItems, List.mem_cons, List.mem_singleton, List.not_mem_nil, or_false] at hitem
  rcases hitem with rfl | rfl | rfl | rfl | rfl <;>
    simp [Item.new, parseFloatValue, parseIntValue] <;> norm_num

theorem calculateTotalValue_foldl (reg : List Item) (a b : ℚ) (hab : a ≤ b)
    (h : ∀ item ∈ reg,
      JSNum.le item.quantity.toNum item.initialQuantity.toNum = true ∧
        JSNum.le 0 item.unitPrice = true) :
    ∃ a' b' : ℚ, reg.foldl (fun totals item =>
        (totals.1 + item.calculateCurrentValue, totals.2 + item.calculateInitialInvestment))
        (JSNum.num a, JSNum.num b) = (JSNum.num a', JSNum.num b') ∧ a' ≤ b' := by
  induction reg generalizing a b with
  | nil => exact ⟨a, b, rfl, hab⟩
  | cons x xs ih =>
    obtain ⟨hq, hp⟩ := h x (by simp)
    obtain ⟨q, iq, hq1, hq2, hle⟩ := (le_toNum_iff _ _).1 hq
    cases hprice : x.unitPrice with
    | nan => rw [hprice] at hp; simp at hp
    | num p =>
      rw [hprice] at hp
      have hp0 : (0 : ℚ) ≤ p := by simpa using hp
      have hle' : (q : ℚ) ≤ (iq : ℚ) := by exact_mod_cast hle
      rw [List.foldl_cons]
      simp only [Item.calculateCurrentValue, Item.calculateInitialInvestment, hprice, hq1, hq2,
        JSInt.toNum_int, JSNum.mul_num, JSNum.add_num]
      exact ih (a + p * q) (b + p * iq)
        (add_le_add hab (mul_le_mul_of_nonneg_left hle' hp0))
        (fun item hitem => h item (by simp [hitem]))

theorem calculateTotalValue_le (reg : List Item)
    (h : ∀ item ∈ reg,
      JSNum.le item.quantity.toNum item.initialQuantity.toNum = true ∧
        JSNum.le 0 item.unitPrice = true) :
    JSNum.le (calculateTotalValue reg).1 (calculateTotalValue reg).2 = true := by
  obtain ⟨a, b, heq, hab⟩ := calculateTotalValue_foldl reg 0 0 (le_refl 0) h
  have h0 : ((0 : JSNum), (0 : JSNum)) = (JSNum.num 0, JSNum.num 0) := by simp
  unfold calculateTotalValue
  rw [h0, heq]
  simpa using hab

/-- Instance of the amended C9: `remove` on the absent id `ITM999` of the seeded store. -/
theorem handleStockAction_absent_witness :
    mapGet seededState.inventoryRegistry "ITM999" = none ∧
    handleStockAction seededState (some ⟨"ITM999", "remove", ""⟩)
      = { state := seededState, effects := [] } ∧
    (handleStockAction seededState (some ⟨"ITM999", "remove", ""⟩)).reportsError = false :=
  ⟨by decide, handleStockAction_absent seededState "ITM999" "remove" "" (Or.inr rfl) (by decide)⟩

end LabInventory
